import Mathlib

/-
Verification of the CryptoDashboard data-acquisition and caching layer.

The definitions below are a shallow embedding of the Python sources
`crypto_api.py`, `database.py` and `app.py`:
 - machine floats become rationals (ℚ), POSIX timestamps become integers,
 - `datetime` values that undergo calendar arithmetic become an explicit
   civil-calendar record (`PyDateTime`),
 - network I/O is replaced by explicit outcome functions, and each outbound
   side effect (rate-limiter slot, HTTP GET, `time.sleep`) is recorded in an
   event trace,
 - `raise` becomes `Except`, databases become in-memory lists of rows in
   insertion order.
-/

/-! ## Retrying transport (`CoinGeckoAPI._make_request_with_retry`) -/

/-- One observable outbound side effect of the client:
`slot` is a call to `_rate_limit_delay`, `httpGet` a `session.get`,
`sleep n` a `time.sleep(n)` of `n` seconds. -/
inductive NetEvent where
  | slot
  | httpGet
  | sleep (secs : Nat)
deriving DecidableEq, Repr

/-- The outcome of one `session.get` attempt: a 429 response, a
`requests.exceptions.RequestException` (connection error, timeout, or a
non-2xx status surfaced by `raise_for_status`), or a parsed 2xx body. -/
inductive UpstreamOutcome (α : Type) where
  | rateLimited
  | transportError (cause : String)
  | ok (body : α)
deriving DecidableEq, Repr

/-- The exceptions `_make_request_with_retry` can raise:
`requestFailed n c` is `Exception("Request failed after {n} attempts: c")`,
`maxRetriesExceeded` is `Exception("Max retries exceeded")`. -/
inductive ReqError where
  | requestFailed (attempts : Nat) (cause : String)
  | maxRetriesExceeded
deriving DecidableEq, Repr

/-- The retry loop of `_make_request_with_retry`, unrolled from attempt
index `attempt` with `remaining = maxRetries - attempt` iterations left.
Mirrors `crypto_api.py` lines 39-57: each iteration acquires a rate-limit
slot, performs the GET, then either sleeps `2 ^ attempt * 5` on a 429,
returns the body on success, re-raises on the last failed attempt, or
sleeps `2 ^ attempt` and retries on a transport failure. -/
def retryFrom {α : Type} (outcomes : Nat → UpstreamOutcome α) (maxRetries : Nat) :
    Nat → Nat → List NetEvent × Except ReqError α
  | 0, _ => ([], .error .maxRetriesExceeded)
  | remaining + 1, attempt =>
    match outcomes attempt with
    | .ok body => ([.slot, .httpGet], .ok body)
    | .rateLimited =>
      let rest := retryFrom outcomes maxRetries remaining (attempt + 1)
      (.slot :: .httpGet :: .sleep (2 ^ attempt * 5) :: rest.1, rest.2)
    | .transportError cause =>
      if attempt = maxRetries - 1 then
        ([.slot, .httpGet], .error (.requestFailed maxRetries cause))
      else
        let rest := retryFrom outcomes maxRetries remaining (attempt + 1)
        (.slot :: .httpGet :: .sleep (2 ^ attempt) :: rest.1, rest.2)

/-- `_make_request_with_retry`: run the retry loop for `maxRetries`
attempts starting at attempt 0 (the Python `for attempt in range(max_retries)`;
the source default for `max_retries` is 3). -/
def makeRequestWithRetry {α : Type} (outcomes : Nat → UpstreamOutcome α)
    (maxRetries : Nat) : List NetEvent × Except ReqError α :=
  retryFrom outcomes maxRetries maxRetries 0

/-- Number of HTTP GET attempts recorded in a trace. -/
def httpGetCount (events : List NetEvent) : Nat :=
  events.countP fun e => match e with | .httpGet => true | _ => false

/-- The successive `time.sleep` durations recorded in a trace. -/
def sleepSeconds (events : List NetEvent) : List Nat :=
  events.filterMap fun e => match e with | .sleep n => some n | _ => none

/-- Helper for `slotDiscipline`: `prevIsSlot` says whether the previous
event in the trace was a rate-limiter slot acquisition. -/
def slotDisciplineFrom (prevIsSlot : Bool) : List NetEvent → Bool
  | [] => true
  | .httpGet :: rest => prevIsSlot && slotDisciplineFrom false rest
  | .slot :: rest => slotDisciplineFrom true rest
  | .sleep _ :: rest => slotDisciplineFrom false rest

/-- A trace satisfies the rate-limiter discipline when every HTTP GET is
immediately preceded by a rate-limiter slot acquisition. -/
def slotDiscipline (events : List NetEvent) : Bool :=
  slotDisciplineFrom false events

/-! ## Market Data Client (`crypto_api.py`) -/

/-- One entry of the `/coins/markets` response used by
`get_current_prices`; optional fields mirror the `.get(..., default)`
accesses in the source. -/
structure MarketCoin where
  id : String
  current_price : ℚ
  price_change_percentage_24h : Option ℚ
  total_volume : Option ℚ
  market_cap : Option ℚ
  last_updated : Option String
deriving DecidableEq, Repr

/-- The per-coin record `get_current_prices` builds from a market entry. -/
structure PriceOut where
  usd : ℚ
  usd_24h_change : ℚ
  usd_24h_vol : ℚ
  usd_market_cap : ℚ
  last_updated_at : String
deriving DecidableEq, Repr

/-- Python-dict assignment on an association list: replace the existing
entry for the key in place, otherwise append a new entry. -/
def dictUpsert {β : Type} : List (String × β) → String → β → List (String × β)
  | [], k, v => [(k, v)]
  | (k', v') :: rest, k, v =>
    if k' == k then (k, v) :: rest else (k', v') :: dictUpsert rest k v

/-- `get_current_prices` (crypto_api.py lines 83-120): empty input returns
the empty dict before any request; otherwise one retried request to
`/coins/markets`, whose entries are normalised with 0 defaults for the
optional fields; a transport failure is re-raised wrapped. -/
def getCurrentPrices (coin_ids : List String)
    (outcomes : Nat → UpstreamOutcome (List MarketCoin)) :
    List NetEvent × Except String (List (String × PriceOut)) :=
  if coin_ids.isEmpty then ([], .ok [])
  else
    let r := makeRequestWithRetry outcomes 3
    match r.2 with
    | .error e =>
      (r.1, .error ("Failed to fetch current prices: " ++ reprStr e))
    | .ok market_data =>
      (r.1, .ok (market_data.foldl (fun acc coin =>
        dictUpsert acc coin.id
          { usd := coin.current_price
            usd_24h_change := coin.price_change_percentage_24h.getD 0
            usd_24h_vol := coin.total_volume.getD 0
            usd_market_cap := coin.market_cap.getD 0
            last_updated_at := coin.last_updated.getD "" }) []))

/-- One coin object of the `/simple/price` response
(`crypto_data['bitcoin']` / `crypto_data['ethereum']`); the 24h change is
optional, read with `.get('usd_24h_change', 0)`. -/
structure PriceEntry where
  usd : ℚ
  usd_24h_change : Option ℚ
deriving DecidableEq, Repr

/-- The `/simple/price` response for ids `bitcoin,ethereum`; `none` models
the key being absent from the returned JSON object. -/
structure SimplePriceResp where
  bitcoin : Option PriceEntry
  ethereum : Option PriceEntry
deriving DecidableEq, Repr

/-- The observable outcome of the `/exchange_rates` lookup inside
`get_trading_pairs`:
`requestError` - `_make_request_with_retry` raised;
`noEur` - `'rates' not in data or 'eur' not in data['rates']`;
`eurValueMissing` - the `eur` object lacks `'value'` (the `KeyError` is
caught by the surrounding `except Exception`);
`eurValue v` - `data['rates']['eur']['value'] == v`. -/
inductive ExchangeResult where
  | requestError (cause : String)
  | noEur
  | eurValueMissing
  | eurValue (v : ℚ)
deriving DecidableEq, Repr

/-- One trading-pair record as built by `get_trading_pairs`. -/
structure PairData where
  price : ℚ
  change_24h : ℚ
  base : String
  quote : String
deriving DecidableEq, Repr

/-- `get_trading_pairs` (crypto_api.py lines 122-201), parameterised by the
outcome of its two upstream lookups. The crypto pairs are added only when
both coins are present with positive USD prices; the EUR/USD entry is the
hard-coded 1.08 fallback on a raised lookup or a missing field, the inverse
rate when the rate value is positive, and nothing otherwise. -/
def getTradingPairs (crypto : Except String SimplePriceResp)
    (exch : ExchangeResult) : Except String (List (String × PairData)) :=
  match crypto with
  | .error e => .error ("Failed to fetch trading pairs: " ++ e)
  | .ok data =>
    let cryptoPairs : List (String × PairData) :=
      match data.bitcoin, data.ethereum with
      | some btc, some eth =>
        if btc.usd > 0 ∧ eth.usd > 0 then
          [("ETH/BTC",
            { price := eth.usd / btc.usd
              change_24h := eth.usd_24h_change.getD 0 - btc.usd_24h_change.getD 0
              base := "Ethereum", quote := "Bitcoin" }),
           ("BTC/ETH",
            { price := btc.usd / eth.usd
              change_24h := btc.usd_24h_change.getD 0 - eth.usd_24h_change.getD 0
              base := "Bitcoin", quote := "Ethereum" })]
        else []
      | _, _ => []
    let fallbackEntry : PairData :=
      { price := 108 / 100, change_24h := 0, base := "Euro", quote := "US Dollar" }
    let eurPairs : List (String × PairData) :=
      match exch with
      | .requestError _ => [("EUR/USD", fallbackEntry)]
      | .noEur => [("EUR/USD", fallbackEntry)]
      | .eurValueMissing => [("EUR/USD", fallbackEntry)]
      | .eurValue v =>
        if v > 0 then
          [("EUR/USD",
            { price := 1 / v, change_24h := 0, base := "Euro", quote := "US Dollar" })]
        else []
    .ok (cryptoPairs ++ eurPairs)

/-- Look a pair name up in a `get_trading_pairs` result. -/
def lookupPair (r : Except String (List (String × PairData))) (name : String) :
    Option PairData :=
  match r with
  | .error _ => none
  | .ok pairs => pairs.lookup name

/-- A `/coins/{id}/market_chart` response body: `none` models a JSON object
without the `'prices'` field; each item is a `[timestamp_ms, price]` pair. -/
structure ChartData where
  prices : Option (List (ℚ × ℚ))
deriving DecidableEq, Repr

/-- `datetime.fromtimestamp(ms / 1000)`, kept as seconds. -/
def fromTimestampMs (ms : ℚ) : ℚ := ms / 1000

/-- `get_historical_data` (crypto_api.py lines 313-339): one retried
request; a missing `'prices'` field raises `ValueError`, which the outer
handler wraps, as it also wraps transport exhaustion. -/
def getHistoricalData (coin_id : String)
    (outcomes : Nat → UpstreamOutcome ChartData) :
    List NetEvent × Except String (List ℚ × List ℚ) :=
  let r := makeRequestWithRetry outcomes 3
  match r.2 with
  | .error e =>
    (r.1, .error ("Failed to fetch historical data for " ++ coin_id ++ ": "
      ++ reprStr e))
  | .ok data =>
    match data.prices with
    | none =>
      (r.1, .error ("Failed to fetch historical data for " ++ coin_id ++ ": "
        ++ "No price data found in response"))
    | some items =>
      (r.1, .ok (items.map (fun p => fromTimestampMs p.1), items.map (·.2)))

/-- `_get_crypto_pair_history` (crypto_api.py lines 223-244): a single
direct `session.get` with no rate-limit slot and no retry; raises on a
transport error or a missing `'prices'` field. -/
def getCryptoPairHistory (resp : Except String ChartData) :
    List NetEvent × Except String (List ℚ × List ℚ) :=
  ([.httpGet],
   match resp with
   | .error e => .error e
   | .ok data =>
     match data.prices with
     | none => .error "No price data found in response"
     | some items =>
       .ok (items.map (fun p => fromTimestampMs p.1), items.map (·.2)))

/-- The flat fallback series of `_get_fiat_pair_history`:
`[now - timedelta(hours=i) for i in range(24*days, 0, -1)]` paired with the
constant rate 1.08 (hours modelled as 3600 seconds). -/
def fiatFallbackSeries (days : Nat) (now : ℚ) : List ℚ × List ℚ :=
  let timestamps := ((List.range' 1 (24 * days)).reverse).map
    (fun i => now - 3600 * (i : ℚ))
  (timestamps, List.replicate timestamps.length (108 / 100))

/-- `_get_fiat_pair_history` (crypto_api.py lines 246-311), parameterised
by the outcomes of its two direct `session.get` calls (BTC/EUR chart then
BTC/USD chart; neither acquires a rate-limit slot). Every failure path
falls back to a flat 1.08 series; when both charts are present the rates
are the pointwise quotients over the common index range and the timestamps
are truncated to match. -/
def getFiatPairHistory (resp1 resp2 : Except String ChartData)
    (days : Nat) (now : ℚ) : List NetEvent × (List ℚ × List ℚ) :=
  match resp1 with
  | .error _ => ([.httpGet], fiatFallbackSeries days now)
  | .ok data =>
    match data.prices with
    | none => ([.httpGet], fiatFallbackSeries days now)
    | some prices_data =>
      let timestamps := prices_data.map (fun p => fromTimestampMs p.1)
      match resp2 with
      | .error _ => ([.httpGet, .httpGet], fiatFallbackSeries days now)
      | .ok usd_data =>
        match usd_data.prices with
        | some usd_items =>
          let usd_prices := usd_items.map (·.2)
          let eur_prices := prices_data.map (·.2)
          let eur_usd_rates := List.zipWith
            (fun u e => if e > 0 then u / e else (108 / 100 : ℚ))
            usd_prices eur_prices
          ([.httpGet, .httpGet],
           (timestamps.take eur_usd_rates.length, eur_usd_rates))
        | none =>
          ([.httpGet, .httpGet],
           (timestamps, List.replicate timestamps.length (108 / 100)))

/-- `get_coin_info` (crypto_api.py lines 341-364): one direct
`session.get` with no rate-limit slot and no retry; failures are
re-raised wrapped. -/
def getCoinInfo (coin_id : String) (resp : Except String ℚ) :
    List NetEvent × Except String ℚ :=
  ([.httpGet],
   match resp with
   | .error e => .error ("Failed to fetch coin info for " ++ coin_id ++ ": " ++ e)
   | .ok body => .ok body)

/-! ## Freshness-aware loader (`app.py`, `load_current_prices`) -/

/-- One entry of the dict returned by `db.get_latest_coin_prices` as seen
by the loader; `last_updated_at` is the POSIX timestamp (seconds) the
database layer attached, `none` modelling the key being absent from the
entry (the loader guards with `if 'last_updated_at' in data`). -/
structure CachedQuote where
  usd : ℚ
  last_updated_at : Option Int
deriving DecidableEq, Repr

/-- Which source `load_current_prices` serves the quotes from: the cached
dict as returned by the database, or a live API fetch for the given ids. -/
inductive LoadSource where
  | fromCache (cached : List (String × CachedQuote))
  | fromApi (requested : List String)
deriving DecidableEq, Repr

/-- The loader's freshness test on one cached entry:
`datetime.now() - last_update < timedelta(minutes=2)`. -/
def isFresh (now : Int) (e : CachedQuote) : Bool :=
  match e.last_updated_at with
  | some ts => now - ts < 120
  | none => false

/-- `load_current_prices` (app.py lines 66-94), restricted to its
fetch-or-serve decision: when the database path is enabled and available
and the cached dict is non-empty, the `for` loop returns the whole cached
dict as soon as it meets one entry whose `last_updated_at` is within two
minutes of now; otherwise the API is called with the full requested id
list. -/
def loadCurrentPrices (useDatabase dbAvailable : Bool)
    (cached : List (String × CachedQuote)) (now : Int)
    (coin_ids : List String) : LoadSource :=
  if useDatabase && dbAvailable && !cached.isEmpty
      && cached.any (fun e => isFresh now e.2) then
    .fromCache cached
  else
    .fromApi coin_ids

/-! ## Cache store (`database.py`) -/

/-- A naive `datetime` as the database layer uses it: a civil timestamp.
`sec` is the number of seconds into the day. Chronological order is the
lexicographic order on `(year, month, day, sec)`. -/
structure PyDateTime where
  year : Int
  month : Nat
  day : Nat
  sec : Nat
deriving DecidableEq, Repr

/-- Chronological strict order on civil timestamps. -/
def PyDateTime.ltB (a b : PyDateTime) : Bool :=
  (a.year < b.year) ||
  (a.year == b.year && ((a.month < b.month) ||
    (a.month == b.month && ((a.day < b.day) ||
      (a.day == b.day && a.sec < b.sec)))))

/-- Gregorian leap-year rule, as `datetime.replace` validates days. -/
def isLeapYear (y : Int) : Bool :=
  (y % 4 == 0 && y % 100 != 0) || (y % 400 == 0)

/-- Number of days of a civil month. -/
def daysInMonth (y : Int) (m : Nat) : Nat :=
  if m = 2 then (if isLeapYear y then 29 else 28)
  else if m = 4 ∨ m = 6 ∨ m = 9 ∨ m = 11 then 30
  else 31

/-- `datetime.replace(day=newDay)`: validates the new day-of-month against
the (unchanged) year and month and raises `ValueError` otherwise. -/
def replaceDay (dt : PyDateTime) (newDay : Int) : Except String PyDateTime :=
  if 1 ≤ newDay ∧ newDay ≤ (daysInMonth dt.year dt.month : Int) then
    .ok { dt with day := newDay.toNat }
  else
    .error "day is out of range for month"

/-- A row of the `coin_prices` table. -/
structure CoinPriceRow where
  coin_id : String
  coin_name : String
  coin_symbol : String
  price_usd : ℚ
  price_btc : ℚ
  price_eth : ℚ
  price_eur : ℚ
  market_cap : ℚ
  volume_24h : ℚ
  change_24h : ℚ
  timestamp : PyDateTime
deriving DecidableEq, Repr

/-- A row of the `trading_pairs` table. -/
structure TradingPairRow where
  pair_name : String
  base_currency : String
  quote_currency : String
  price : ℚ
  change_24h : ℚ
  timestamp : PyDateTime
deriving DecidableEq, Repr

/-- A row of the `historical_data` table. -/
structure HistoricalRow where
  coin_id : String
  price : ℚ
  timestamp : PyDateTime
deriving DecidableEq, Repr

/-- A row of the `pair_historical_data` table. -/
structure PairHistoricalRow where
  pair_name : String
  price : ℚ
  timestamp : PyDateTime
deriving DecidableEq, Repr

/-- The persisted tables the pruning path touches, each as its rows in
insertion order. -/
structure DbState where
  coin_prices : List CoinPriceRow
  trading_pairs : List TradingPairRow
  historical_data : List HistoricalRow
  pair_historical_data : List PairHistoricalRow
deriving DecidableEq, Repr

/-- The per-coin record `get_latest_coin_prices` builds from the winning
row (its `last_updated_at` is `row.timestamp.timestamp()`, kept here as the
civil timestamp itself). -/
structure CoinQuoteOut where
  usd : ℚ
  btc : ℚ
  eth : ℚ
  eur : ℚ
  usd_market_cap : ℚ
  usd_24h_vol : ℚ
  usd_24h_change : ℚ
  last_updated_at : PyDateTime
deriving DecidableEq, Repr

/-- Convert a stored row to the dict entry `get_latest_coin_prices`
returns. -/
def coinRowToQuote (r : CoinPriceRow) : CoinQuoteOut :=
  { usd := r.price_usd, btc := r.price_btc, eth := r.price_eth
    eur := r.price_eur, usd_market_cap := r.market_cap
    usd_24h_vol := r.volume_24h, usd_24h_change := r.change_24h
    last_updated_at := r.timestamp }

/-- One step of `ORDER BY timestamp DESC ... first()` over rows in
insertion order: keep the row seen so far unless the new row's timestamp
is strictly greater (a stable descending sort puts the first-inserted of
the maximal rows first). -/
def maxTsStep (acc : Option CoinPriceRow) (r : CoinPriceRow) :
    Option CoinPriceRow :=
  match acc with
  | none => some r
  | some best =>
    if PyDateTime.ltB best.timestamp r.timestamp then some r else some best

/-- The single most recent row of a filtered row list, as the query
`order_by(CoinPrice.timestamp.desc()).first()` computes it. -/
def latestCoinRow (rows : List CoinPriceRow) : Option CoinPriceRow :=
  rows.foldl maxTsStep none

/-- `get_latest_coin_prices` (database.py lines 188-211): for each
requested id in order, the most recent `coin_prices` row for that id, ids
without rows being skipped. -/
def getLatestCoinPrices (store : List CoinPriceRow) (coin_ids : List String) :
    List (String × CoinQuoteOut) :=
  coin_ids.filterMap fun id =>
    (latestCoinRow (store.filter (fun r => r.coin_id == id))).map
      (fun row => (id, coinRowToQuote row))

/-- Convert a stored row to the dict entry `get_latest_trading_pairs`
returns. -/
def pairRowToData (r : TradingPairRow) : PairData :=
  { price := r.price, change_24h := r.change_24h
    base := r.base_currency, quote := r.quote_currency }

/-- `get_latest_trading_pairs` (database.py lines 213-229): iterate over
`query(TradingPair).all()` — every row, in insertion order, with no
ORDER BY — assigning `pairs[pair.pair_name] = ...`, so the last row of the
table wins for each pair name. -/
def getLatestTradingPairs (store : List TradingPairRow) :
    List (String × PairData) :=
  store.foldl (fun acc r => dictUpsert acc r.pair_name (pairRowToData r)) []

/-- `cleanup_old_data` (database.py lines 322-353): the cutoff is computed
as `datetime.utcnow().replace(day=datetime.utcnow().day - days)`; if that
raises (`day - days` outside the current month) the session is rolled back
and the error re-raised with no row deleted, otherwise every row of the
four tables with `timestamp < cutoff` is deleted. -/
def cleanupOldData (now : PyDateTime) (days : Nat) (db : DbState) :
    Except String DbState :=
  match replaceDay now ((now.day : Int) - (days : Int)) with
  | .error e => .error e
  | .ok cutoff =>
    .ok { coin_prices :=
            db.coin_prices.filter (fun r => !PyDateTime.ltB r.timestamp cutoff)
          trading_pairs :=
            db.trading_pairs.filter (fun r => !PyDateTime.ltB r.timestamp cutoff)
          historical_data :=
            db.historical_data.filter (fun r => !PyDateTime.ltB r.timestamp cutoff)
          pair_historical_data :=
            db.pair_historical_data.filter
              (fun r => !PyDateTime.ltB r.timestamp cutoff) }

/-! ## Theorems -/

/-- C9: for the empty set of asset ids, `get_current_prices` returns the
empty mapping, with an empty event trace, i.e. without making any call to
the transport. -/
theorem empty_ids_no_transport_call
    (outcomes : Nat → UpstreamOutcome (List MarketCoin)) :
    getCurrentPrices [] outcomes = ([], .ok []) := rfl

/-- C5: when the upstream answers 429 on the first two attempts and
succeeds on the third, `_make_request_with_retry` (with the default
`max_retries = 3`) returns the successful body without raising, sleeping
exactly 5 seconds after the first 429 and 10 seconds after the second. -/
theorem rate_limit_backoff_schedule (outcomes : Nat → UpstreamOutcome ℚ)
    (b : ℚ) (h0 : outcomes 0 = .rateLimited) (h1 : outcomes 1 = .rateLimited)
    (h2 : outcomes 2 = .ok b) :
    makeRequestWithRetry outcomes 3 =
      ([.slot, .httpGet, .sleep 5, .slot, .httpGet, .sleep 10, .slot, .httpGet],
       .ok b) := by
  simp [makeRequestWithRetry, retryFrom, h0, h1, h2]

/-- The 429-twice-then-success outcome sequence used to instantiate the
backoff theorem. -/
def twice429Outcomes : Nat → UpstreamOutcome ℚ := fun n =>
  if n = 0 then .rateLimited else if n = 1 then .rateLimited else .ok 7

/-- Witness for `rate_limit_backoff_schedule` at a concrete outcome
sequence. -/
theorem rate_limit_backoff_schedule_witness :
    makeRequestWithRetry twice429Outcomes 3 =
      ([.slot, .httpGet, .sleep 5, .slot, .httpGet, .sleep 10, .slot, .httpGet],
       .ok 7) :=
  rate_limit_backoff_schedule twice429Outcomes 7 rfl rfl rfl

/-- A store with one 60-day-old coin-price row, used as the pruning
input. -/
def dbStateOld : DbState :=
  ⟨[⟨"bitcoin", "Bitcoin", "BTC", 10, 0, 0, 0, 0, 0, 0, ⟨2026, 8, 1, 0⟩⟩],
   [], [], []⟩

/-- C3: the code computes the pruning cutoff as
`utcnow().replace(day=utcnow().day - days)`; with `days = 30` and a
day-of-month of at most 30 (here the 15th) the `replace` raises
`ValueError`, the transaction is rolled back and nothing is deleted, so a
row observed 60 days earlier survives — the claim that `prune(kind, 30)`
removes every row older than 30 days fails on all such dates. -/
theorem cleanup_old_data_value_error :
    cleanupOldData ⟨2026, 10, 15, 43200⟩ 30 dbStateOld =
      .error "day is out of range for month" := rfl

/-- The partially covering fresh cache entry used against claim C1. -/
def cachedBitcoinOnly : List (String × CachedQuote) := [("bitcoin", ⟨5, some 100⟩)]

/-- C1 counterexample: with the database enabled and a cached result that
covers only `bitcoin` (one fresh row, observed 50 seconds before now),
`load_current_prices` for the set `{bitcoin, ethereum}` serves the cached
dict even though the requested key `ethereum` is absent from it — the
claim that a missing key forces a full fetch fails. -/
theorem loader_serves_incomplete_cache :
    loadCurrentPrices true true cachedBitcoinOnly 150 ["bitcoin", "ethereum"]
      = .fromCache cachedBitcoinOnly
    ∧ cachedBitcoinOnly.lookup "ethereum" = none := by decide

/-- A `/simple/price` response with both reference coins present at
positive prices, used against claim C2. -/
def bothCoinsResp : SimplePriceResp :=
  { bitcoin := some { usd := 100, usd_24h_change := some 1 }
    ethereum := some { usd := 50, usd_24h_change := some 2 } }

/-- C2 counterexample: when the crypto leg succeeds but the exchange-rate
lookup returns a zero rate, `get_trading_pairs` adds neither the computed
entry (the `> 0` guard fails) nor the 1.08 fallback (the `else` belongs to
the missing-field test), so `EUR/USD` is absent from the result. -/
theorem fiat_pair_absent_on_zero_rate :
    lookupPair (getTradingPairs (.ok bothCoinsResp) (.eurValue 0)) "EUR/USD"
      = none
    ∧ (getTradingPairs (.ok bothCoinsResp) (.eurValue 0)).isOk = true := by decide

/-- The later-inserted of two `trading_pairs` rows for the same pair,
carrying the strictly older timestamp. -/
def pairRowOlderTs : TradingPairRow :=
  ⟨"ETH/BTC", "Ethereum", "Bitcoin", 2, 0, ⟨2026, 1, 1, 0⟩⟩

/-- The earlier-inserted of two `trading_pairs` rows for the same pair,
carrying the strictly newer timestamp. -/
def pairRowNewerTs : TradingPairRow :=
  ⟨"ETH/BTC", "Ethereum", "Bitcoin", 1, 0, ⟨2026, 1, 2, 0⟩⟩

/-- C6 counterexample: `get_latest_trading_pairs` iterates every row with
no ORDER BY and lets the last-inserted row win; on a store whose second
(later-inserted) row has the strictly older `observed_at`, the read
returns that older-timestamped row, not the one with the greatest
`observed_at`. -/
theorem latest_pairs_not_most_recent :
    (getLatestTradingPairs [pairRowNewerTs, pairRowOlderTs]).lookup "ETH/BTC"
      = some (pairRowToData pairRowOlderTs)
    ∧ PyDateTime.ltB pairRowOlderTs.timestamp pairRowNewerTs.timestamp = true
    ∧ pairRowToData pairRowOlderTs ≠ pairRowToData pairRowNewerTs := by decide

lemma httpGetCount_cons_slot (l : List NetEvent) :
    httpGetCount (.slot :: l) = httpGetCount l := by
  simp [httpGetCount, List.countP_cons]

lemma httpGetCount_cons_get (l : List NetEvent) :
    httpGetCount (.httpGet :: l) = httpGetCount l + 1 := by
  simp [httpGetCount, List.countP_cons]

lemma httpGetCount_cons_sleep (n : Nat) (l : List NetEvent) :
    httpGetCount (.sleep n :: l) = httpGetCount l := by
  simp [httpGetCount, List.countP_cons]

lemma sleepSeconds_cons_slot (l : List NetEvent) :
    sleepSeconds (.slot :: l) = sleepSeconds l := by
  simp [sleepSeconds, List.filterMap_cons]

lemma sleepSeconds_cons_get (l : List NetEvent) :
    sleepSeconds (.httpGet :: l) = sleepSeconds l := by
  simp [sleepSeconds, List.filterMap_cons]

lemma sleepSeconds_cons_sleep (n : Nat) (l : List NetEvent) :
    sleepSeconds (.sleep n :: l) = n :: sleepSeconds l := by
  simp [sleepSeconds, List.filterMap_cons]

lemma retryFrom_all_transport_errors {α : Type}
    (outcomes : Nat → UpstreamOutcome α) (cause : Nat → String) (mr : Nat)
    (h : ∀ j, j < mr → outcomes j = .transportError (cause j)) :
    ∀ remaining attempt, remaining ≠ 0 → attempt + remaining = mr →
      httpGetCount (retryFrom outcomes mr remaining attempt).1 = remaining ∧
      sleepSeconds (retryFrom outcomes mr remaining attempt).1 =
        (List.range (remaining - 1)).map (fun k => 2 ^ (attempt + k)) ∧
      (retryFrom outcomes mr remaining attempt).2 =
        .error (.requestFailed mr (cause (mr - 1))) := by
  intro remaining
  induction remaining with
  | zero => intro attempt h0; exact absurd rfl h0
  | succ n ih =>
    intro attempt _ hsum
    have hout := h attempt (by omega)
    by_cases hlast : attempt = mr - 1
    · have hn : n = 0 := by omega
      subst hn
      subst hlast
      have hstep : retryFrom outcomes mr 1 (mr - 1) =
          ([.slot, .httpGet], .error (.requestFailed mr (cause (mr - 1)))) := by
        simp [retryFrom, hout]
      rw [hstep]
      exact ⟨rfl, rfl, rfl⟩
    · have hn : n ≠ 0 := by omega
      obtain ⟨hc, hs, he⟩ := ih (attempt + 1) hn (by omega)
      have hstep : retryFrom outcomes mr (n + 1) attempt =
          (.slot :: .httpGet :: .sleep (2 ^ attempt) ::
              (retryFrom outcomes mr n (attempt + 1)).1,
           (retryFrom outcomes mr n (attempt + 1)).2) := by
        simp [retryFrom, hout, hlast]
      rw [hstep]
      refine ⟨?_, ?_, he⟩
      · simp only [httpGetCount_cons_slot, httpGetCount_cons_get,
          httpGetCount_cons_sleep]
        omega
      · simp only [sleepSeconds_cons_slot, sleepSeconds_cons_get,
          sleepSeconds_cons_sleep, hs]
        obtain ⟨m, rfl⟩ : ∃ m, n = m + 1 := ⟨n - 1, by omega⟩
        simp only [Nat.add_sub_cancel]
        rw [List.range_succ_eq_map]
        simp only [List.map_cons, List.map_map]
        congr 1
        refine List.map_congr_left fun k _ => ?_
        show (2 : ℕ) ^ (attempt + 1 + k) = 2 ^ (attempt + (k + 1))
        exact congrArg (fun t => 2 ^ t) (by omega)

/-- C4: when every attempt fails at transport level,
`_make_request_with_retry` makes exactly `max_retries` GET attempts —
never more — sleeping `2 ^ attempt` seconds between consecutive attempts,
and then raises the request-failed error carrying the attempt count and
the last underlying cause. -/
theorem transport_failure_exhausts_retries {α : Type}
    (outcomes : Nat → UpstreamOutcome α) (cause : Nat → String) (mr : Nat)
    (hmr : mr ≠ 0) (h : ∀ j, j < mr → outcomes j = .transportError (cause j)) :
    httpGetCount (makeRequestWithRetry outcomes mr).1 = mr ∧
    sleepSeconds (makeRequestWithRetry outcomes mr).1 =
      (List.range (mr - 1)).map (fun k => 2 ^ k) ∧
    (makeRequestWithRetry outcomes mr).2 =
      .error (.requestFailed mr (cause (mr - 1))) := by
  have hmain := retryFrom_all_transport_errors outcomes cause mr h mr 0 hmr
    (by omega)
  simpa [makeRequestWithRetry] using hmain

/-- Witness for `transport_failure_exhausts_retries` at the default
`max_retries = 3` and a constant connection failure. -/
theorem transport_failure_exhausts_retries_witness :
    httpGetCount (makeRequestWithRetry
        (fun _ => UpstreamOutcome.transportError (α := ℚ) "boom") 3).1 = 3 ∧
    sleepSeconds (makeRequestWithRetry
        (fun _ => UpstreamOutcome.transportError (α := ℚ) "boom") 3).1 =
      (List.range 2).map (fun k => 2 ^ k) ∧
    (makeRequestWithRetry
        (fun _ => UpstreamOutcome.transportError (α := ℚ) "boom") 3).2 =
      .error (.requestFailed 3 "boom") :=
  transport_failure_exhausts_retries
    (fun _ => UpstreamOutcome.transportError (α := ℚ) "boom")
    (fun _ => "boom") 3 (by decide) (fun _ _ => rfl)

/-- C7 counterexample: `_get_crypto_pair_history` sends its request with a
direct `session.get`, so its (successful) trace contains an HTTP GET that
is not preceded by any rate-limiter slot acquisition. -/
theorem pair_history_request_without_slot :
    slotDiscipline (getCryptoPairHistory (.ok ⟨some [(1000, 2)]⟩)).1 = false
    ∧ (getCryptoPairHistory (.ok ⟨some [(1000, 2)]⟩)).2 = .ok ([1], [2]) := by
  refine ⟨rfl, ?_⟩
  norm_num [getCryptoPairHistory, fromTimestampMs]

lemma slotDisciplineFrom_retryFrom {α : Type}
    (outcomes : Nat → UpstreamOutcome α) (mr : Nat) :
    ∀ remaining attempt b,
      slotDisciplineFrom b (retryFrom outcomes mr remaining attempt).1 = true := by
  intro remaining
  induction remaining with
  | zero => intro attempt b; rfl
  | succ n ih =>
    intro attempt b
    cases hout : outcomes attempt with
    | ok body => simp [retryFrom, hout, slotDisciplineFrom]
    | rateLimited => simp [retryFrom, hout, slotDisciplineFrom, ih]
    | transportError cause =>
      by_cases hlast : attempt = mr - 1
      · subst hlast
        simp [retryFrom, hout, slotDisciplineFrom]
      · simp [retryFrom, hout, hlast, slotDisciplineFrom, ih]

/-- C7 amended: every request issued through `_make_request_with_retry`
(and hence each retry attempt of the bulk endpoints) acquires a
rate-limiter slot immediately before the GET; but the pair-history
requests (`_get_crypto_pair_history`, `_get_fiat_pair_history`) and the
coin-detail request (`get_coin_info`) are sent directly and never acquire
a slot. -/
theorem slot_acquired_only_by_retrying_transport :
    (∀ (mr : Nat) (outcomes : Nat → UpstreamOutcome ℚ),
      slotDiscipline (makeRequestWithRetry outcomes mr).1 = true)
  ∧ (∀ r : Except String ChartData, NetEvent.slot ∉ (getCryptoPairHistory r).1)
  ∧ (∀ (r1 r2 : Except String ChartData) (days : Nat) (now : ℚ),
      NetEvent.slot ∉ (getFiatPairHistory r1 r2 days now).1)
  ∧ (∀ (c : String) (r : Except String ℚ), NetEvent.slot ∉ (getCoinInfo c r).1) := by
  refine ⟨?_, ?_, ?_, ?_⟩
  · intro mr outcomes
    exact slotDisciplineFrom_retryFrom outcomes mr mr 0 false
  · intro r
    simp [getCryptoPairHistory]
  · rintro (e1 | ⟨_ | pd⟩) (e2 | ⟨_ | usd⟩) days now <;>
      simp [getFiatPairHistory]
  · intro c r
    simp [getCoinInfo]

/-- Witness for `slot_acquired_only_by_retrying_transport` at a concrete
outcome function. -/
theorem slot_acquired_only_by_retrying_transport_witness :
    slotDiscipline
      (makeRequestWithRetry (fun _ => UpstreamOutcome.ok (1 : ℚ)) 3).1 = true :=
  slot_acquired_only_by_retrying_transport.1 3 (fun _ => UpstreamOutcome.ok 1)

/-- Witness for `empty_ids_no_transport_call` at a concrete outcome
function. -/
theorem empty_ids_no_transport_call_witness :
    getCurrentPrices [] (fun _ => UpstreamOutcome.ok ([] : List MarketCoin)) =
      ([], .ok []) :=
  empty_ids_no_transport_call (fun _ => UpstreamOutcome.ok [])

/-- C10: every historical-series operation returns a timestamps list and a
prices list of the same length, on every path — including the fiat
fallback and the length-mismatch truncation path. -/
theorem history_series_lengths :
    (∀ (c : String) (outcomes : Nat → UpstreamOutcome ChartData)
        (ts ps : List ℚ),
        (getHistoricalData c outcomes).2 = .ok (ts, ps) → ts.length = ps.length)
  ∧ (∀ (r : Except String ChartData) (ts ps : List ℚ),
        (getCryptoPairHistory r).2 = .ok (ts, ps) → ts.length = ps.length)
  ∧ (∀ (r1 r2 : Except String ChartData) (days : Nat) (now : ℚ),
        (getFiatPairHistory r1 r2 days now).2.1.length =
          (getFiatPairHistory r1 r2 days now).2.2.length) := by
  refine ⟨?_, ?_, ?_⟩
  · intro c outcomes ts ps hok
    rcases hmr : (makeRequestWithRetry outcomes 3).2 with e | data
    · simp [getHistoricalData, hmr] at hok
    · rcases hp : data.prices with _ | items
      · simp [getHistoricalData, hmr, hp] at hok
      · simp [getHistoricalData, hmr, hp] at hok
        obtain ⟨h1, h2⟩ := hok
        simp [← h1, ← h2]
  · intro r ts ps hok
    rcases r with e | data
    · simp [getCryptoPairHistory] at hok
    · rcases hp : data.prices with _ | items
      · simp [getCryptoPairHistory, hp] at hok
      · simp [getCryptoPairHistory, hp] at hok
        obtain ⟨h1, h2⟩ := hok
        simp [← h1, ← h2]
  · rintro (e1 | ⟨_ | pd⟩) (e2 | ⟨_ | usd⟩) days now <;>
      simp [getFiatPairHistory, fiatFallbackSeries, List.length_zipWith,
        List.length_take]

/-- Witness for the two conditional parts of `history_series_lengths` at a
concrete one-point chart response. -/
theorem history_series_lengths_witness :
    ([fromTimestampMs 1000] : List ℚ).length = ([(2 : ℚ)] : List ℚ).length ∧
    ([fromTimestampMs 3000] : List ℚ).length = ([(4 : ℚ)] : List ℚ).length :=
  ⟨history_series_lengths.1 "bitcoin" (fun _ => .ok ⟨some [(1000, 2)]⟩)
      [fromTimestampMs 1000] [2] rfl,
   history_series_lengths.2.1 (.ok ⟨some [(3000, 4)]⟩)
      [fromTimestampMs 3000] [4] rfl⟩

/-- C8: with both reference coins present at positive USD prices,
`get_trading_pairs` yields `ETH/BTC` priced at the secondary (ETH) USD
price divided by the base (BTC) USD price with `change_24h` the difference
of the two 24h changes, and `BTC/ETH` at the exact reciprocal with the
opposite change difference. -/
theorem pair_rate_reciprocal (btcP ethP btcC ethC : ℚ) (exch : ExchangeResult)
    (hb : btcP > 0) (he : ethP > 0) :
    lookupPair (getTradingPairs
        (.ok ⟨some ⟨btcP, some btcC⟩, some ⟨ethP, some ethC⟩⟩) exch) "ETH/BTC"
      = some ⟨ethP / btcP, ethC - btcC, "Ethereum", "Bitcoin"⟩
    ∧ lookupPair (getTradingPairs
        (.ok ⟨some ⟨btcP, some btcC⟩, some ⟨ethP, some ethC⟩⟩) exch) "BTC/ETH"
      = some ⟨btcP / ethP, btcC - ethC, "Bitcoin", "Ethereum"⟩
    ∧ btcP / ethP = (ethP / btcP)⁻¹ := by
  have hcond : btcP > 0 ∧ ethP > 0 := ⟨hb, he⟩
  refine ⟨?_, ?_, (inv_div ethP btcP).symm⟩ <;>
    simp [getTradingPairs, lookupPair, hcond, List.lookup]

lemma isFresh_iff (now : Int) (q : CachedQuote) :
    isFresh now q = true ↔
      ∃ ts, q.last_updated_at = some ts ∧ now - ts < 120 := by
  rcases hq : q.last_updated_at with _ | ts <;> simp [isFresh, hq]

/-- C1 amended: `load_current_prices` serves the cached dict exactly when
the database path is enabled and available and at least one cached row's
`last_updated_at` is within two minutes of now — coverage of the
requested keys and freshness of the remaining rows are not checked;
otherwise the API is invoked with the entire requested id list. -/
theorem loader_cache_decision (u d : Bool) (cached : List (String × CachedQuote))
    (now : Int) (coin_ids : List String) :
    (loadCurrentPrices u d cached now coin_ids = .fromCache cached ↔
      (u = true ∧ d = true ∧
        ∃ e ∈ cached, ∃ ts, e.2.last_updated_at = some ts ∧ now - ts < 120))
  ∧ (loadCurrentPrices u d cached now coin_ids = .fromCache cached ∨
     loadCurrentPrices u d cached now coin_ids = .fromApi coin_ids) := by
  have hcond : (u && d && !cached.isEmpty
        && cached.any fun e => isFresh now e.2) = true
      ↔ (u = true ∧ d = true ∧
          ∃ e ∈ cached, ∃ ts, e.2.last_updated_at = some ts ∧ now - ts < 120) := by
    constructor
    · intro h
      rw [Bool.and_eq_true, Bool.and_eq_true, Bool.and_eq_true] at h
      obtain ⟨⟨⟨hu, hd⟩, _⟩, hany⟩ := h
      obtain ⟨e, hmem, hfr⟩ := List.any_eq_true.1 hany
      exact ⟨hu, hd, e, hmem, (isFresh_iff now e.2).1 hfr⟩
    · rintro ⟨hu, hd, e, hmem, hts⟩
      rw [Bool.and_eq_true, Bool.and_eq_true, Bool.and_eq_true]
      refine ⟨⟨⟨hu, hd⟩, ?_⟩,
        List.any_eq_true.2 ⟨e, hmem, (isFresh_iff now e.2).2 hts⟩⟩
      cases cached with
      | nil => exact absurd hmem (List.not_mem_nil e)
      | cons a t => rfl
  constructor
  · unfold loadCurrentPrices
    by_cases hC : (u && d && !cached.isEmpty
        && cached.any fun e => isFresh now e.2) = true
    · rw [if_pos hC]
      exact iff_of_true rfl (hcond.1 hC)
    · rw [if_neg hC]
      exact iff_of_false (fun heq => LoadSource.noConfusion heq)
        (fun hr => hC (hcond.2 hr))
  · unfold loadCurrentPrices
    by_cases hC : (u && d && !cached.isEmpty
        && cached.any fun e => isFresh now e.2) = true
    · rw [if_pos hC]; exact Or.inl rfl
    · rw [if_neg hC]; exact Or.inr rfl

/-- Witness for `loader_cache_decision`: at the concrete partial cache of
the counterexample, the serve-from-cache condition is met. -/
theorem loader_cache_decision_witness :
    loadCurrentPrices true true cachedBitcoinOnly 150 ["bitcoin", "ethereum"]
      = .fromCache cachedBitcoinOnly :=
  (loader_cache_decision true true cachedBitcoinOnly 150
      ["bitcoin", "ethereum"]).1.2
    ⟨rfl, rfl, ("bitcoin", ⟨5, some 100⟩), by decide, 100, rfl, by decide⟩

/-- C2 amended: when the crypto leg succeeds, `get_trading_pairs` returns
the EUR/USD entry with the hard-coded price 1.08 and `change_24h = 0` on a
raised exchange-rate lookup, a missing `rates`/`eur` field or a missing
`value` field; but when the rate value is present and not positive (e.g. a
zero rate), the EUR/USD entry is absent from the result. -/
theorem fiat_pair_fallback (data : SimplePriceResp) (exch : ExchangeResult) :
    ((∃ c, exch = .requestError c) ∨ exch = .noEur ∨ exch = .eurValueMissing →
      lookupPair (getTradingPairs (.ok data) exch) "EUR/USD"
        = some ⟨108 / 100, 0, "Euro", "US Dollar"⟩)
  ∧ (∀ v : ℚ, exch = .eurValue v → v ≤ 0 →
      lookupPair (getTradingPairs (.ok data) exch) "EUR/USD" = none) := by
  rcases data with ⟨b, e⟩
  constructor
  · rintro (⟨c, rfl⟩ | rfl | rfl) <;>
    · simp only [getTradingPairs, lookupPair]
      rcases b with _ | pb <;> rcases e with _ | pe <;>
        try simp [List.lookup]
      by_cases hpos : pb.usd > 0 ∧ pe.usd > 0 <;> simp [hpos, List.lookup]
  · rintro v rfl hv
    have hvn : ¬v > 0 := not_lt.2 hv
    simp only [getTradingPairs, lookupPair]
    rcases b with _ | pb <;> rcases e with _ | pe
    · simp [hvn, List.lookup]
    · simp [hvn, List.lookup]
    · simp [hvn, List.lookup]
    · by_cases hpos : pb.usd > 0 ∧ pe.usd > 0
      · simp [hpos, hvn, List.lookup]
      · simp [hpos, hvn, List.lookup]

/-- Witness for `fiat_pair_fallback`: the missing-field fallback and the
zero-rate absence at the concrete two-coin response. -/
theorem fiat_pair_fallback_witness :
    lookupPair (getTradingPairs (.ok bothCoinsResp) .noEur) "EUR/USD"
      = some ⟨108 / 100, 0, "Euro", "US Dollar"⟩
  ∧ lookupPair (getTradingPairs (.ok bothCoinsResp) (.eurValue 0)) "EUR/USD"
      = none :=
  ⟨(fiat_pair_fallback bothCoinsResp .noEur).1 (Or.inr (Or.inl rfl)),
   (fiat_pair_fallback bothCoinsResp (.eurValue 0)).2 0 rfl (by norm_num)⟩

lemma ltB_irrefl (a : PyDateTime) : PyDateTime.ltB a a = false := by
  simp [PyDateTime.ltB]

lemma ltB_false_trans (x y z : PyDateTime)
    (h1 : PyDateTime.ltB y x = false) (h2 : PyDateTime.ltB x z = false) :
    PyDateTime.ltB y z = false := by
  simp only [PyDateTime.ltB, Bool.or_eq_false_iff, Bool.and_eq_false_iff,
    decide_eq_false_iff_not, not_lt, beq_eq_false_iff_ne, ne_eq,
    Bool.or_eq_true, Bool.and_eq_true, decide_eq_true_eq, beq_iff_eq] at h1 h2 ⊢
  omega

lemma ltB_false_of_lt (x z y : PyDateTime)
    (h1 : PyDateTime.ltB y z = false) (h2 : PyDateTime.ltB x z = true) :
    PyDateTime.ltB y x = false := by
  simp only [PyDateTime.ltB, Bool.or_eq_false_iff, Bool.and_eq_false_iff,
    decide_eq_false_iff_not, not_lt, beq_eq_false_iff_ne, ne_eq,
    Bool.or_eq_true, Bool.and_eq_true, decide_eq_true_eq, beq_iff_eq] at h1 h2 ⊢
  omega

lemma foldl_maxTsStep_spec :
    ∀ (rows : List CoinPriceRow) (acc : Option CoinPriceRow) (b : CoinPriceRow),
      rows.foldl maxTsStep acc = some b →
      (acc = some b ∨ b ∈ rows) ∧
      (∀ r ∈ rows, PyDateTime.ltB b.timestamp r.timestamp = false) ∧
      (∀ a, acc = some a → PyDateTime.ltB b.timestamp a.timestamp = false) := by
  intro rows
  induction rows with
  | nil =>
    intro acc b h
    simp only [List.foldl_nil] at h
    refine ⟨Or.inl h, by simp, ?_⟩
    intro a ha
    rw [h] at ha
    obtain rfl := Option.some.inj ha
    exact ltB_irrefl _
  | cons r rest ih =>
    intro acc b h
    rw [List.foldl_cons] at h
    obtain ⟨hmem, hall, hacc⟩ := ih (maxTsStep acc r) b h
    rcases acc with _ | a0
    · rw [show maxTsStep none r = some r from rfl] at hmem hacc
      refine ⟨?_, ?_, by intro a ha; simp at ha⟩
      · rcases hmem with heq | hm
        · obtain rfl := Option.some.inj heq
          exact Or.inr (List.mem_cons_self _ _)
        · exact Or.inr (List.mem_cons_of_mem r hm)
      · intro x hx
        rcases List.mem_cons.1 hx with rfl | hxr
        · exact hacc x rfl
        · exact hall x hxr
    · by_cases hcmp : PyDateTime.ltB a0.timestamp r.timestamp = true
      · rw [show maxTsStep (some a0) r = some r by
          simp [maxTsStep, hcmp]] at hmem hacc
        refine ⟨?_, ?_, ?_⟩
        · rcases hmem with heq | hm
          · obtain rfl := Option.some.inj heq
            exact Or.inr (List.mem_cons_self _ _)
          · exact Or.inr (List.mem_cons_of_mem r hm)
        · intro x hx
          rcases List.mem_cons.1 hx with rfl | hxr
          · exact hacc x rfl
          · exact hall x hxr
        · intro a ha
          obtain rfl := Option.some.inj ha
          exact ltB_false_of_lt a0.timestamp r.timestamp b.timestamp
            (hacc r rfl) hcmp
      · have hcmp' : PyDateTime.ltB a0.timestamp r.timestamp = false := by
          cases hb : PyDateTime.ltB a0.timestamp r.timestamp
          · rfl
          · exact absurd hb hcmp
        rw [show maxTsStep (some a0) r = some a0 by
          simp [maxTsStep, hcmp']] at hmem hacc
        refine ⟨?_, ?_, ?_⟩
        · rcases hmem with heq | hm
          · exact Or.inl heq
          · exact Or.inr (List.mem_cons_of_mem r hm)
        · intro x hx
          rcases List.mem_cons.1 hx with rfl | hxr
          · exact ltB_false_trans a0.timestamp b.timestamp x.timestamp
              (hacc a0 rfl) hcmp'
          · exact hall x hxr
        · intro a ha
          obtain rfl := Option.some.inj ha
          exact hacc a0 rfl

lemma foldl_maxTsStep_ne_none :
    ∀ (rows : List CoinPriceRow) (a : CoinPriceRow),
      rows.foldl maxTsStep (some a) ≠ none := by
  intro rows
  induction rows with
  | nil => intro a h; exact Option.noConfusion h
  | cons r rest ih =>
    intro a h
    rw [List.foldl_cons] at h
    by_cases hc : PyDateTime.ltB a.timestamp r.timestamp = true
    · rw [show maxTsStep (some a) r = some r by simp [maxTsStep, hc]] at h
      exact ih r h
    · have hc' : PyDateTime.ltB a.timestamp r.timestamp = false := by
        cases hb : PyDateTime.ltB a.timestamp r.timestamp
        · rfl
        · exact absurd hb hc
      rw [show maxTsStep (some a) r = some a by simp [maxTsStep, hc']] at h
      exact ih a h

lemma latestCoinRow_eq_none_iff (rows : List CoinPriceRow) :
    latestCoinRow rows = none ↔ rows = [] := by
  cases rows with
  | nil => simp [latestCoinRow]
  | cons r rest =>
    simp only [latestCoinRow, List.foldl_cons]
    exact iff_of_false (foldl_maxTsStep_ne_none rest r) (by simp)

lemma lookup_filterMap_keyed (g : String → Option CoinQuoteOut) :
    ∀ (ids : List String) (id : String),
      (ids.filterMap (fun i => (g i).map (fun q => (i, q)))).lookup id =
        if id ∈ ids then g id else none := by
  intro ids
  induction ids with
  | nil => intro id; simp
  | cons i rest ih =>
    intro id
    by_cases hii : id = i
    · subst hii
      cases hg : g id with
      | some q => simp [List.filterMap_cons, hg, List.lookup]
      | none => simp [List.filterMap_cons, hg, ih id]
    · cases hg : g i with
      | some q =>
        simp only [List.filterMap_cons, hg, Option.map_some']
        rw [List.lookup]
        rw [show (id == i) = false from beq_eq_false_iff_ne.2 hii]
        rw [ih id]
        simp [List.mem_cons, hii]
      | none =>
        simp only [List.filterMap_cons, hg, Option.map_none']
        rw [ih id]
        simp [List.mem_cons, hii]

lemma lookup_dictUpsert :
    ∀ (d : List (String × PairData)) (k : String) (v : PairData) (k' : String),
      (dictUpsert d k v).lookup k' =
        if k' = k then some v else d.lookup k' := by
  intro d
  induction d with
  | nil =>
    intro k v k'
    by_cases h : k' = k
    · subst h
      simp [dictUpsert, List.lookup]
    · simp [dictUpsert, List.lookup, h, beq_eq_false_iff_ne.2 h]
  | cons p rest ih =>
    intro k v k'
    rcases p with ⟨pk, pv⟩
    by_cases hpk : pk = k
    · subst hpk
      rw [show dictUpsert ((pk, pv) :: rest) pk v = (pk, v) :: rest by
        simp [dictUpsert]]
      by_cases hk' : k' = pk
      · subst hk'
        simp [List.lookup]
      · simp [List.lookup, beq_eq_false_iff_ne.2 hk', hk']
    · rw [show dictUpsert ((pk, pv) :: rest) k v
          = (pk, pv) :: dictUpsert rest k v by
        simp [dictUpsert, beq_eq_false_iff_ne.2 hpk]]
      by_cases hk' : k' = pk
      · subst hk'
        simp [List.lookup, hpk]
      · simp [List.lookup, beq_eq_false_iff_ne.2 hk', ih k v k']

lemma getLast?_cons_ne_nil {α : Type} (a : α) :
    ∀ (l : List α), l ≠ [] → (a :: l).getLast? = l.getLast? := by
  intro l hl
  cases l with
  | nil => exact absurd rfl hl
  | cons b t => exact List.getLast?_cons_cons

lemma getLast?_singleton {α : Type} (a : α) : ([a] : List α).getLast? = some a :=
  rfl

lemma eq_nil_of_getLast?_eq_none {α : Type} :
    ∀ (l : List α), l.getLast? = none → l = [] := by
  intro l
  induction l with
  | nil => intro _; rfl
  | cons a t ih =>
    intro h
    cases t with
    | nil => simp [List.getLast?] at h
    | cons b t' =>
      rw [List.getLast?_cons_cons] at h
      exact absurd (ih h) (by simp)

lemma getLatestTradingPairs_foldl :
    ∀ (rows : List TradingPairRow) (acc : List (String × PairData)) (name : String),
      (rows.foldl (fun d r => dictUpsert d r.pair_name (pairRowToData r))
          acc).lookup name =
        match (rows.filter (fun r => r.pair_name == name)).getLast? with
        | some r => some (pairRowToData r)
        | none => acc.lookup name := by
  intro rows
  induction rows with
  | nil => intro acc name; rfl
  | cons r rest ih =>
    intro acc name
    rw [List.foldl_cons, ih]
    by_cases hr : (r.pair_name == name) = true
    · rw [show List.filter (fun x => x.pair_name == name) (r :: rest)
          = r :: List.filter (fun x => x.pair_name == name) rest by
        simp [List.filter_cons, hr]]
      cases hLast : (rest.filter (fun r => r.pair_name == name)).getLast? with
      | some x =>
        have hne : rest.filter (fun r => r.pair_name == name) ≠ [] := by
          intro hnil
          rw [hnil] at hLast
          exact Option.noConfusion hLast
        rw [getLast?_cons_ne_nil r _ hne, hLast]
      | none =>
        rw [eq_nil_of_getLast?_eq_none _ hLast]
        rw [lookup_dictUpsert]
        have hnr : name = r.pair_name := (beq_iff_eq.1 hr).symm
        rw [if_pos hnr, getLast?_singleton]
    · have hr' : (r.pair_name == name) = false := by
        cases hb : (r.pair_name == name)
        · rfl
        · exact absurd hb hr
      rw [show List.filter (fun x => x.pair_name == name) (r :: rest)
          = List.filter (fun x => x.pair_name == name) rest by
        simp [List.filter_cons, hr']]
      cases hLast : (rest.filter (fun r => r.pair_name == name)).getLast? with
      | some x => rfl
      | none =>
        rw [lookup_dictUpsert]
        have hnr : ¬name = r.pair_name :=
          fun h => (beq_eq_false_iff_ne.1 hr') h.symm
        rw [if_neg hnr]

/-- C6 amended: for spot quotes, `get_latest_coin_prices` returns per
requested id exactly the most recent stored row by `timestamp` (ids with
no rows are absent, not an error); for pair rates,
`get_latest_trading_pairs` returns per pair name the last row of the table
in insertion order — which coincides with the greatest `observed_at` only
when insertion order is timestamp-monotone — and takes no key-set
argument. -/
theorem latest_reads_characterized (store : List CoinPriceRow)
    (pstore : List TradingPairRow) (ids : List String) (id name : String) :
    (id ∈ ids →
      (getLatestCoinPrices store ids).lookup id =
        (latestCoinRow (store.filter (fun r => r.coin_id == id))).map
          coinRowToQuote)
  ∧ (∀ b, latestCoinRow (store.filter (fun r => r.coin_id == id)) = some b →
      b ∈ store ∧ b.coin_id = id ∧
      ∀ r ∈ store, r.coin_id = id →
        PyDateTime.ltB b.timestamp r.timestamp = false)
  ∧ (latestCoinRow (store.filter (fun r => r.coin_id == id)) = none ↔
      ∀ r ∈ store, r.coin_id ≠ id)
  ∧ ((getLatestTradingPairs pstore).lookup name =
      ((pstore.filter (fun r => r.pair_name == name)).getLast?).map
        pairRowToData) := by
  refine ⟨?_, ?_, ?_, ?_⟩
  · intro hid
    have hrw : getLatestCoinPrices store ids =
        ids.filterMap (fun i =>
          ((latestCoinRow (store.filter (fun r => r.coin_id == i))).map
            coinRowToQuote).map (fun q => (i, q))) := by
      unfold getLatestCoinPrices
      congr 1
      funext i
      rw [Option.map_map]
      rfl
    rw [hrw, lookup_filterMap_keyed
      (fun i => (latestCoinRow (store.filter (fun r => r.coin_id == i))).map
        coinRowToQuote) ids id, if_pos hid]
  · intro b hb
    unfold latestCoinRow at hb
    obtain ⟨hmem, hall, _⟩ :=
      foldl_maxTsStep_spec (store.filter (fun r => r.coin_id == id)) none b hb
    rcases hmem with h0 | hmemf
    · exact absurd h0 (by simp)
    · have hbf := List.mem_filter.1 hmemf
      refine ⟨hbf.1, by simpa using hbf.2, ?_⟩
      intro r hr hrid
      exact hall r (List.mem_filter.2 ⟨hr, by simp [hrid]⟩)
  · rw [latestCoinRow_eq_none_iff]
    simp [List.filter_eq_nil_iff]
  · unfold getLatestTradingPairs
    rw [getLatestTradingPairs_foldl pstore [] name]
    cases hLast : (pstore.filter (fun r => r.pair_name == name)).getLast? with
    | some x => simp
    | none => simp [List.lookup]

/-- Witness for `latest_reads_characterized` at a one-row store. -/
theorem latest_reads_characterized_witness :
    (getLatestCoinPrices
        [⟨"bitcoin", "Bitcoin", "BTC", 10, 0, 0, 0, 0, 0, 0, ⟨2026, 8, 1, 0⟩⟩]
        ["bitcoin"]).lookup "bitcoin" =
      (latestCoinRow
        (([⟨"bitcoin", "Bitcoin", "BTC", 10, 0, 0, 0, 0, 0, 0,
            ⟨2026, 8, 1, 0⟩⟩] : List CoinPriceRow).filter
          (fun r => r.coin_id == "bitcoin"))).map coinRowToQuote :=
  (latest_reads_characterized
      [⟨"bitcoin", "Bitcoin", "BTC", 10, 0, 0, 0, 0, 0, 0, ⟨2026, 8, 1, 0⟩⟩]
      [] ["bitcoin"] "bitcoin" "ETH/BTC").1 (by decide)

/-- Witness for `pair_rate_reciprocal` at base price 100 and secondary
price 50: the ratio is 0.5 and its inverse exactly 2. -/
theorem pair_rate_reciprocal_witness :
    lookupPair (getTradingPairs
        (.ok ⟨some ⟨100, some 1⟩, some ⟨50, some 2⟩⟩) .noEur) "ETH/BTC"
      = some ⟨1 / 2, 1, "Ethereum", "Bitcoin"⟩
    ∧ lookupPair (getTradingPairs
        (.ok ⟨some ⟨100, some 1⟩, some ⟨50, some 2⟩⟩) .noEur) "BTC/ETH"
      = some ⟨2, -1, "Bitcoin", "Ethereum"⟩ := by
  have h := pair_rate_reciprocal 100 50 1 2 .noEur (by norm_num) (by norm_num)
  refine ⟨h.1.trans ?_, h.2.1.trans ?_⟩ <;> norm_num
